import Mathlib

/-!
# godo: directory-level todo manager

A shallow embedding of `main.go`.  The todo collection is an ordered list of
records; every command handler is a function from the process arguments and
the state of the outside world (the `.godo.json` file, the clock, whether the
write succeeds) to what the process prints, its exit status and the collection
it hands to `saveTodos`.

Go's `int` is 64 bits wide.  The only `int` arithmetic in the program is a
counter that is incremented at most once per element of a slice, so it never
leaves the range of `int`; counters are therefore integers without wrap-around.
`strconv.Atoi` is the one place where the width matters and it is modelled with
its range check.
-/

namespace Godo

/-! ## Data model -/

/-- Todo represents a single todo item.  `CreatedAt` is an abstract timestamp. -/
structure Todo where
  Text : String
  Completed : Bool
  CreatedAt : Nat
  deriving DecidableEq, Repr

/-- TodoList represents the collection of todos. -/
structure TodoList where
  Todos : List Todo
  deriving DecidableEq, Repr

/-- What `os.ReadFile` and `json.Unmarshal` find at `.godo.json`. -/
inductive FileState where
  /-- `os.IsNotExist(err)` holds -/
  | missing
  /-- any other read error, or a document `json.Unmarshal` rejects -/
  | unreadable (err : String)
  /-- a well-formed document -/
  | holds (todoList : TodoList)
  deriving DecidableEq, Repr

/-- The outside world a single invocation runs in. -/
structure World where
  /-- state of `.godo.json` when the process starts -/
  file : FileState
  /-- the error `saveTodos` returns, if it fails -/
  writeErr : Option String
  /-- value of `time.Now()` -/
  now : Nat
  deriving DecidableEq, Repr

/-- One `fmt.Println` / `fmt.Printf` call of the program, with its arguments. -/
inductive Msg where
  | provideText
  | usageAdd
  | provideId
  | usageDone
  | usageRemove
  | loadError (err : String)
  | saveError (err : String)
  | added (activeCount : Int) (text : String)
  | noTodos
  | activeHeader
  | activeItem (rank : Int) (text : String)
  | noActive
  | completedHeader
  | completedItem (rank : Int) (text : String)
  | invalidId (arg : String)
  | idTooSmall
  | notFound (position : Int)
  | completedNotFound (position : Int)
  | completed (position : Int) (text : String)
  | removed (position : Int) (text : String)
  | nothingToClean
  | cleaned (completedCount : Int)
  | removedCompleted (position : Int) (text : String)
  /-- a Go run-time error (index out of range); the process dies with status 2 -/
  | runtimeError
  deriving DecidableEq, Repr

def colorReset : String := "\x1b[0m"
def colorGreen : String := "\x1b[32m"
def colorRed : String := "\x1b[31m"
def colorYellow : String := "\x1b[33m"
def colorCyan : String := "\x1b[36m"
def colorGray : String := "\x1b[90m"

/-- The text each print call writes to standard output. -/
def Msg.render : Msg → String
  | .provideText => "Error: Please provide todo text\n"
  | .usageAdd => "Usage: godo add <text>\n"
  | .provideId => "Error: Please provide todo ID\n"
  | .usageDone => "Usage: godo done <id>\n"
  | .usageRemove => "Usage: godo remove <id>\n"
  | .loadError err => "Error loading todos: " ++ err ++ "\n"
  | .saveError err => "Error saving todos: " ++ err ++ "\n"
  | .added n text =>
      colorGreen ++ "[Added]" ++ colorReset ++ " Todo #" ++ toString n ++ ": " ++ text ++ "\n"
  | .noTodos => "No todos yet. Add one with: godo add <text>\n"
  | .activeHeader => colorCyan ++ "Active Todos:" ++ colorReset ++ "\n"
  | .activeItem n text =>
      "  " ++ colorYellow ++ "[" ++ toString n ++ "]" ++ colorReset ++ " " ++ text ++ "\n"
  | .noActive => colorGray ++ "No active todos." ++ colorReset ++ "\n"
  | .completedHeader => "\n" ++ colorGray ++ "Completed Todos:" ++ colorReset ++ "\n"
  | .completedItem n text =>
      "  " ++ colorGray ++ "[" ++ toString n ++ "]" ++ colorReset ++ " " ++ colorGray ++ text
        ++ colorReset ++ "\n"
  | .invalidId arg => "Error: Invalid todo ID " ++ "\x27" ++ arg ++ "\x27" ++ "\n"
  | .idTooSmall => "Error: Todo ID must be 1 or greater\n"
  | .notFound p => "Error: Todo #" ++ toString p ++ " not found\n"
  | .completedNotFound p => "Error: Completed todo #" ++ toString p ++ " not found\n"
  | .completed p text =>
      colorGreen ++ "[Completed]" ++ colorReset ++ " Todo #" ++ toString p ++ ": " ++ text ++ "\n"
  | .removed p text =>
      colorRed ++ "[Removed]" ++ colorReset ++ " Todo #" ++ toString p ++ ": " ++ text ++ "\n"
  | .nothingToClean => "No completed todos to clean\n"
  | .cleaned n =>
      colorGreen ++ "[Cleaned]" ++ colorReset ++ " Removed " ++ toString n ++ " completed todo(s)\n"
  | .removedCompleted p text =>
      colorRed ++ "[Removed]" ++ colorReset ++ " Completed todo #" ++ toString p ++ ": " ++ text
        ++ "\n"
  | .runtimeError => ""

/-- What one invocation does: the print calls in order, the exit status, and the
collection handed to `saveTodos` (`none` when `saveTodos` is never called). -/
structure Result where
  out : List Msg
  exit : Nat
  saved : Option TodoList
  deriving DecidableEq, Repr

/-! ## Persistence -/

/-- Load todos from the .godo.json file in current directory. -/
def loadTodos (file : FileState) : Except String TodoList :=
  match file with
  | .missing => .ok ⟨[]⟩
  | .unreadable err => .error err
  | .holds todoList => .ok todoList

/-- Save todos to the .godo.json file in current directory. -/
def saveTodos (_todoList : TodoList) (w : World) : Except String Unit :=
  match w.writeErr with
  | some err => .error err
  | none => .ok ()

/-! ## Argument parsing -/

/-- Go's `strconv.Atoi` for a 64-bit `int`: an optional sign, then one or more
decimal digits, and the value must fit in 64 signed bits; anything else is an
error (`none`). -/
def Atoi (s : String) : Option Int :=
  let cs := s.toList
  let signed : Bool × List Char :=
    match cs with
    | '-' :: r => (true, r)
    | '+' :: r => (false, r)
    | _ => (false, cs)
  let ds := signed.2
  if ds.isEmpty then none
  else if ds.all Char.isDigit then
    let n : Nat := ds.foldl (fun acc c => acc * 10 + (c.toNat - 48)) 0
    let v : Int := if signed.1 then -(n : Int) else (n : Int)
    if -(2 : Int) ^ 63 ≤ v ∧ v < (2 : Int) ^ 63 then some v else none
  else none

/-! ## Rank-resolution loops

Each handler has its own copy of the loop; they are embedded one by one.  The
arguments after the slice are the loop variables: the index `i` of the head of
the remaining slice and the running counter.  `none` stands for the sentinel
(`targetTodo == nil`, `targetIndex == -1`) the loop leaves when it runs off the
end. -/

/-- The loop of `handleDone`: find the Nth active todo. -/
def doneLoop (position : Int) : List Todo → Nat → Int → Option Nat
  | [], _, _ => none
  | todo :: rest, i, activeIndex =>
    if !todo.Completed then
      if activeIndex + 1 = position then some i
      else doneLoop position rest (i + 1) (activeIndex + 1)
    else doneLoop position rest (i + 1) activeIndex

/-- The loop of `handleRemove`: find the Nth active todo. -/
def removeLoop (position : Int) : List Todo → Nat → Int → Option Nat
  | [], _, _ => none
  | todo :: rest, i, activeIndex =>
    if !todo.Completed then
      if activeIndex + 1 = position then some i
      else removeLoop position rest (i + 1) (activeIndex + 1)
    else removeLoop position rest (i + 1) activeIndex

/-- The loop of `handleClean`: find the Nth completed todo. -/
def cleanLoop (position : Int) : List Todo → Nat → Int → Option Nat
  | [], _, _ => none
  | todo :: rest, i, completedIndex =>
    if todo.Completed then
      if completedIndex + 1 = position then some i
      else cleanLoop position rest (i + 1) (completedIndex + 1)
    else cleanLoop position rest (i + 1) completedIndex

/-! ## Command handlers -/

/-- The handler of `add`. -/
def handleAdd (osArgs : List String) (w : World) : Result :=
  if osArgs.length < 3 then ⟨[.provideText, .usageAdd], 1, none⟩
  else
    let text := " ".intercalate (osArgs.drop 2)
    match loadTodos w.file with
    | .error err => ⟨[.loadError err], 1, none⟩
    | .ok todoList =>
      let newTodo : Todo := ⟨text, false, w.now⟩
      let todoList : TodoList := ⟨todoList.Todos ++ [newTodo]⟩
      match saveTodos todoList w with
      | .error err => ⟨[.saveError err], 1, some todoList⟩
      | .ok _ =>
        -- Count active todos to show the position
        let activeCount : Int :=
          todoList.Todos.foldl
            (fun activeCount todo => if !todo.Completed then activeCount + 1 else activeCount) 0
        ⟨[.added activeCount newTodo.Text], 0, some todoList⟩

/-- The first loop of `handleList`: split the collection into `activeTodos` and
`completedTodos`. -/
def splitTodos (todos : List Todo) : List Todo × List Todo :=
  todos.foldl
    (fun acc todo => if todo.Completed then (acc.1, acc.2 ++ [todo]) else (acc.1 ++ [todo], acc.2))
    ([], [])

/-- The lines `handleList` prints for `activeTodos`: `[i+1] text`. -/
def activeLines (activeTodos : List Todo) : List Msg :=
  activeTodos.enum.map (fun it => Msg.activeItem ((it.1 : Int) + 1) it.2.Text)

/-- The lines `handleList` prints for `completedTodos`: `[i+1] text`. -/
def completedLines (completedTodos : List Todo) : List Msg :=
  completedTodos.enum.map (fun it => Msg.completedItem ((it.1 : Int) + 1) it.2.Text)

/-- The handler of `list`. -/
def handleList (osArgs : List String) (w : World) : Result :=
  match loadTodos w.file with
  | .error err => ⟨[.loadError err], 1, none⟩
  | .ok todoList =>
    let showAll := decide (osArgs.length > 2) && (osArgs[2]? == some "--all" || osArgs[2]? == some "-a")
    let activeTodos := (splitTodos todoList.Todos).1
    let completedTodos := (splitTodos todoList.Todos).2
    if activeTodos.length = 0 ∧ completedTodos.length = 0 then ⟨[.noTodos], 0, none⟩
    else
      let first : List Msg :=
        if activeTodos.length > 0 then Msg.activeHeader :: activeLines activeTodos
        else [Msg.noActive]
      let second : List Msg :=
        if showAll && decide (completedTodos.length > 0) then
          Msg.completedHeader :: completedLines completedTodos
        else []
      ⟨first ++ second, 0, none⟩

/-- The handler of `done`.  The first test, `len(os.Args) < 3`, is the case in
which `os.Args[2]` does not exist; it is written as the lookup of that argument
failing (see `arg_missing_iff`). -/
def handleDone (osArgs : List String) (w : World) : Result :=
  match osArgs[2]? with
  | none => ⟨[.provideId, .usageDone], 1, none⟩
  | some arg =>
    match Atoi arg with
    | none => ⟨[.invalidId arg], 1, none⟩
    | some position =>
      if position < 1 then ⟨[.idTooSmall], 1, none⟩
      else
        match loadTodos w.file with
        | .error err => ⟨[.loadError err], 1, none⟩
        | .ok todoList =>
          match doneLoop position todoList.Todos 0 0 with
          | none => ⟨[.notFound position], 1, none⟩
          | some i =>
            match todoList.Todos[i]? with
            | none => ⟨[.runtimeError], 2, none⟩
            | some targetTodo =>
              -- targetTodo.Completed = true, through the pointer into the slice
              let targetTodo : Todo := { targetTodo with Completed := true }
              let todoList : TodoList := ⟨todoList.Todos.set i targetTodo⟩
              match saveTodos todoList w with
              | .error err =>
                ⟨[.completed position targetTodo.Text, .saveError err], 1, some todoList⟩
              | .ok _ => ⟨[.completed position targetTodo.Text], 0, some todoList⟩

/-- The handler of `remove`.  As in `handleDone`, `len(os.Args) < 3` is the
lookup of `os.Args[2]` failing. -/
def handleRemove (osArgs : List String) (w : World) : Result :=
  match osArgs[2]? with
  | none => ⟨[.provideId, .usageRemove], 1, none⟩
  | some arg =>
    match Atoi arg with
    | none => ⟨[.invalidId arg], 1, none⟩
    | some position =>
      if position < 1 then ⟨[.idTooSmall], 1, none⟩
      else
        match loadTodos w.file with
        | .error err => ⟨[.loadError err], 1, none⟩
        | .ok todoList =>
          match removeLoop position todoList.Todos 0 0 with
          | none => ⟨[.notFound position], 1, none⟩
          | some targetIndex =>
            match todoList.Todos[targetIndex]? with
            | none => ⟨[.runtimeError], 2, none⟩
            | some removedTodo =>
              let todoList : TodoList :=
                ⟨todoList.Todos.take targetIndex ++ todoList.Todos.drop (targetIndex + 1)⟩
              match saveTodos todoList w with
              | .error err => ⟨[.saveError err], 1, some todoList⟩
              | .ok _ => ⟨[.removed position removedTodo.Text], 0, some todoList⟩

/-- The handler of `clean`.  The file is loaded first; `len(os.Args) < 3`, the
lookup of `os.Args[2]` failing, selects the branch that removes all completed
todos. -/
def handleClean (osArgs : List String) (w : World) : Result :=
  match loadTodos w.file with
  | .error err => ⟨[.loadError err], 1, none⟩
  | .ok todoList =>
    match osArgs[2]? with
    | none =>
      -- If no ID provided, remove all completed todos
      let acc : Int × List Todo :=
        todoList.Todos.foldl
          (fun acc todo => if !todo.Completed then (acc.1, acc.2 ++ [todo]) else (acc.1 + 1, acc.2))
          (0, [])
      let completedCount := acc.1
      let newTodos := acc.2
      if completedCount = 0 then ⟨[.nothingToClean], 0, none⟩
      else
        let todoList : TodoList := ⟨newTodos⟩
        match saveTodos todoList w with
        | .error err => ⟨[.saveError err], 1, some todoList⟩
        | .ok _ => ⟨[.cleaned completedCount], 0, some todoList⟩
    | some arg =>
      -- Remove specific completed todo by position
      match Atoi arg with
      | none => ⟨[.invalidId arg], 1, none⟩
      | some position =>
        if position < 1 then ⟨[.idTooSmall], 1, none⟩
        else
          match cleanLoop position todoList.Todos 0 0 with
          | none => ⟨[.completedNotFound position], 1, none⟩
          | some targetIndex =>
            match todoList.Todos[targetIndex]? with
            | none => ⟨[.runtimeError], 2, none⟩
            | some removedTodo =>
              let todoList : TodoList :=
                ⟨todoList.Todos.take targetIndex ++ todoList.Todos.drop (targetIndex + 1)⟩
              match saveTodos todoList w with
              | .error err => ⟨[.saveError err], 1, some todoList⟩
              | .ok _ => ⟨[.removedCompleted position removedTodo.Text], 0, some todoList⟩

/-! ## The two predicates and the shape the three loops share -/

/-- The test of the loops in `handleDone` and `handleRemove`. -/
def isActive (todo : Todo) : Bool := !todo.Completed

/-- The test of the loop in `handleClean`. -/
def isCompleted (todo : Todo) : Bool := todo.Completed

/-- The three loops differ only in the test; this is the loop with the test as
a parameter.  It is used for the proofs only. -/
def rankLoop (p : Todo → Bool) (position : Int) : List Todo → Nat → Int → Option Nat
  | [], _, _ => none
  | todo :: rest, i, count =>
    if p todo then
      if count + 1 = position then some i
      else rankLoop p position rest (i + 1) (count + 1)
    else rankLoop p position rest (i + 1) count

/-! ## Sample data for the concrete instances -/

/-- An active record. -/
def todoA : Todo := ⟨"A", false, 1⟩

/-- A completed record. -/
def todoB : Todo := ⟨"B", true, 2⟩

/-- An active record. -/
def todoC : Todo := ⟨"C", false, 3⟩

/-- A collection with two active records around a completed one. -/
def sampleTodos : List Todo := [todoA, todoB, todoC]

/-- A world whose file holds `sampleTodos` and whose writes succeed. -/
def sampleWorld : World := ⟨.holds ⟨sampleTodos⟩, none, 9⟩

/-- A world without a `.godo.json` file. -/
def emptyWorld : World := ⟨.missing, none, 9⟩

/-! ## The three loops are one loop -/

/-- The argument `os.Args[2]` is missing exactly when `len(os.Args) < 3`. -/
theorem arg_missing_iff (osArgs : List String) : osArgs[2]? = none ↔ osArgs.length < 3 := by
  rw [List.getElem?_eq_none_iff]
  omega

theorem doneLoop_eq_rankLoop (position : Int) (l : List Todo) (i : Nat) (c : Int) :
    doneLoop position l i c = rankLoop isActive position l i c := by
  induction l generalizing i c with
  | nil => rfl
  | cons t rest ih => simp [doneLoop, rankLoop, isActive, ih]

theorem removeLoop_eq_rankLoop (position : Int) (l : List Todo) (i : Nat) (c : Int) :
    removeLoop position l i c = rankLoop isActive position l i c := by
  induction l generalizing i c with
  | nil => rfl
  | cons t rest ih => simp [removeLoop, rankLoop, isActive, ih]

theorem cleanLoop_eq_rankLoop (position : Int) (l : List Todo) (i : Nat) (c : Int) :
    cleanLoop position l i c = rankLoop isCompleted position l i c := by
  induction l generalizing i c with
  | nil => rfl
  | cons t rest ih => simp [cleanLoop, rankLoop, isCompleted, ih]

/-- The loop answers `k` exactly when `k` is the index of a matching record that
has `position - count - 1` matching records before it. -/
theorem rankLoop_eq_some_iff (p : Todo → Bool) (position : Int) (l : List Todo) (i : Nat)
    (c : Int) (k : Nat) :
    rankLoop p position l i c = some k ↔
      ∃ j t, k = i + j ∧ l[j]? = some t ∧ p t = true ∧
        c + ((l.take j).countP p : Int) + 1 = position := by
  induction l generalizing i c with
  | nil => simp [rankLoop]
  | cons a rest ih =>
    by_cases hp : p a = true
    · by_cases hc : c + 1 = position
      · simp only [rankLoop, hp, hc, if_true, Option.some.injEq]
        constructor
        · intro h
          exact ⟨0, a, by omega, by simp, hp, by simp; omega⟩
        · rintro ⟨j, t, hk, _, _, hcount⟩
          cases j with
          | zero => omega
          | succ j =>
            simp only [List.take_succ_cons, List.countP_cons, hp, if_true] at hcount
            push_cast at hcount
            omega
      · simp only [rankLoop, hp, hc, if_true, if_false, ih]
        constructor
        · rintro ⟨j, t, hk, hget, hpt, hcount⟩
          refine ⟨j + 1, t, by omega, by simpa using hget, hpt, ?_⟩
          simp only [List.take_succ_cons, List.countP_cons, hp, if_true]
          push_cast
          omega
        · rintro ⟨j, t, hk, hget, hpt, hcount⟩
          cases j with
          | zero => simp at hcount; omega
          | succ j =>
            refine ⟨j, t, by omega, by simpa using hget, hpt, ?_⟩
            simp only [List.take_succ_cons, List.countP_cons, hp, if_true] at hcount
            push_cast at hcount
            omega
    · have hp' : p a = false := by simpa using hp
      simp only [rankLoop, hp', Bool.false_eq_true, if_false, ih]
      constructor
      · rintro ⟨j, t, hk, hget, hpt, hcount⟩
        refine ⟨j + 1, t, by omega, by simpa using hget, hpt, ?_⟩
        simpa [List.countP_cons, hp'] using hcount
      · rintro ⟨j, t, hk, hget, hpt, hcount⟩
        cases j with
        | zero =>
          simp at hget
          subst hget
          exact absurd hpt hp
        | succ j =>
          refine ⟨j, t, by omega, by simpa using hget, hpt, ?_⟩
          simpa [List.countP_cons, hp'] using hcount

/-- The loop runs off the end exactly when the matching records are too few. -/
theorem rankLoop_eq_none_iff (p : Todo → Bool) (position : Int) (l : List Todo) (i : Nat)
    (c : Int) (hc : c < position) :
    rankLoop p position l i c = none ↔ c + (l.countP p : Int) < position := by
  induction l generalizing i c with
  | nil => simp [rankLoop, hc]
  | cons a rest ih =>
    by_cases hp : p a = true
    · by_cases h1 : c + 1 = position
      · simp only [rankLoop, hp, h1, if_true, List.countP_cons]
        push_cast
        constructor
        · intro h; cases h
        · intro h; omega
      · simp only [rankLoop, hp, h1, if_true, if_false, List.countP_cons]
        rw [ih (i + 1) (c + 1) (by omega)]
        push_cast
        omega
    · have hp' : p a = false := by simpa using hp
      simp only [rankLoop, hp', Bool.false_eq_true, if_false, List.countP_cons]
      rw [ih (i + 1) c hc]
      simp

/-! ## Facts about lists the claims rest on -/

/-- From the start of the loop: the answer is the index of the matching record
with exactly `position - 1` matching records before it. -/
theorem rankLoop_start_iff (p : Todo → Bool) (position : Int) (l : List Todo) (k : Nat) :
    rankLoop p position l 0 0 = some k ↔
      ∃ t, l[k]? = some t ∧ p t = true ∧ ((l.take k).countP p : Int) + 1 = position := by
  rw [rankLoop_eq_some_iff]
  constructor
  · rintro ⟨j, t, hk, hget, hpt, hcount⟩
    have hkj : k = j := by omega
    subst hkj
    exact ⟨t, hget, hpt, by omega⟩
  · rintro ⟨t, hget, hpt, hcount⟩
    exact ⟨k, t, by omega, hget, hpt, by omega⟩

/-- Every rank from 1 to the number of matching records resolves. -/
theorem rankLoop_resolves (p : Todo → Bool) (position : Int) (l : List Todo)
    (h1 : 1 ≤ position) (h2 : position ≤ (l.countP p : Int)) :
    ∃ k, rankLoop p position l 0 0 = some k := by
  cases h : rankLoop p position l 0 0 with
  | some k => exact ⟨k, rfl⟩
  | none =>
    rw [rankLoop_eq_none_iff p position l 0 0 (by omega)] at h
    omega

/-- The number of matching records before an index grows with the index. -/
theorem countP_take_mono (p : Todo → Bool) (l : List Todo) (a b : Nat) (hab : a ≤ b) :
    (l.take a).countP p ≤ (l.take b).countP p := by
  have h : l.take a = (l.take b).take a := by
    rw [List.take_take, Nat.min_eq_left hab]
  rw [h]
  exact List.Sublist.countP_le p (List.take_sublist a (l.take b))

/-- A matching record sits in the filtered view at the position given by the
number of matching records before it. -/
theorem getElem?_filter_rank (p : Todo → Bool) (l : List Todo) (j : Nat) (t : Todo)
    (hget : l[j]? = some t) (hpt : p t = true) :
    (l.filter p)[(l.take j).countP p]? = some t := by
  induction l generalizing j with
  | nil => simp at hget
  | cons a rest ih =>
    cases j with
    | zero =>
      simp at hget
      subst hget
      simp [List.filter_cons, hpt]
    | succ j =>
      have hget' : rest[j]? = some t := by simpa using hget
      by_cases hp : p a = true
      · simpa [List.filter_cons, List.countP_cons, hp] using ih j hget'
      · have hp' : p a = false := by simpa using hp
        simpa [List.filter_cons, List.countP_cons, hp'] using ih j hget'

/-- Overwriting a matching record by a non-matching one lowers by one the number
of matching records before every later index. -/
theorem countP_take_set (p : Todo → Bool) (l : List Todo) (a b : Nat) (t x : Todo)
    (hget : l[a]? = some t) (hpt : p t = true) (hpx : p x = false) (hab : a < b) :
    ((l.set a x).take b).countP p + 1 = (l.take b).countP p := by
  induction l generalizing a b with
  | nil => simp at hget
  | cons c rest ih =>
    cases b with
    | zero => omega
    | succ b =>
      cases a with
      | zero =>
        simp at hget
        subst hget
        simp [List.countP_cons, hpt, hpx]
      | succ a =>
        have hget' : rest[a]? = some t := by simpa using hget
        have h := ih a b hget' (by omega)
        simp only [List.set_cons_succ, List.take_succ_cons, List.countP_cons]
        omega

/-- Deleting a matching record lowers by one the number of matching records
before every later index (which moves down by one). -/
theorem countP_take_erase (p : Todo → Bool) (l : List Todo) (a b : Nat) (t : Todo)
    (hget : l[a]? = some t) (hpt : p t = true) (hab : a < b) :
    ((l.take a ++ l.drop (a + 1)).take (b - 1)).countP p + 1 = (l.take b).countP p := by
  induction l generalizing a b with
  | nil => simp at hget
  | cons c rest ih =>
    cases b with
    | zero => omega
    | succ b =>
      cases a with
      | zero =>
        simp at hget
        subst hget
        simp [List.countP_cons, hpt]
      | succ a =>
        have hget' : rest[a]? = some t := by simpa using hget
        have h := ih a b hget' (by omega)
        obtain ⟨b', rfl⟩ : ∃ b', b = b' + 1 := ⟨b - 1, by omega⟩
        simp only [List.take_succ_cons, List.drop_succ_cons, List.cons_append,
          Nat.add_sub_cancel, List.countP_cons] at h ⊢
        omega

/-- What deleting index `a` does to every position. -/
theorem getElem?_take_append_drop (l : List Todo) (a n : Nat) :
    (l.take a ++ l.drop (a + 1))[n]? = if n < a then l[n]? else l[n + 1]? := by
  rw [← List.eraseIdx_eq_take_drop_succ, List.getElem?_eraseIdx]

/-- Deleting an index that exists shortens the list by one. -/
theorem length_take_append_drop (l : List Todo) (a : Nat) (ha : a < l.length) :
    (l.take a ++ l.drop (a + 1)).length + 1 = l.length := by
  rw [← List.eraseIdx_eq_take_drop_succ, List.length_eraseIdx]
  simp [ha]
  omega

/-- The first loop of `handleList`, started from any pair of accumulators. -/
theorem splitTodos_foldl (l : List Todo) (a b : List Todo) :
    l.foldl
      (fun acc todo => if todo.Completed then (acc.1, acc.2 ++ [todo]) else (acc.1 ++ [todo], acc.2))
      (a, b) = (a ++ l.filter isActive, b ++ l.filter isCompleted) := by
  induction l generalizing a b with
  | nil => simp
  | cons t rest ih =>
    cases hc : t.Completed <;>
      simp [List.foldl_cons, ih, List.filter_cons, isActive, isCompleted, hc]

theorem splitTodos_eq (l : List Todo) :
    splitTodos l = (l.filter isActive, l.filter isCompleted) := by
  simpa [splitTodos] using splitTodos_foldl l [] []

/-- The counting loop of `handleAdd`, started from any count. -/
theorem activeCount_foldl (l : List Todo) (c : Int) :
    l.foldl (fun activeCount todo => if !todo.Completed then activeCount + 1 else activeCount) c
      = c + (l.countP isActive : Int) := by
  induction l generalizing c with
  | nil => simp
  | cons t rest ih =>
    rw [List.foldl_cons]
    cases hc : t.Completed
    · simp only [Bool.not_false, if_true]
      rw [ih]
      simp [List.countP_cons, isActive, hc]
      omega
    · simp only [Bool.not_true, Bool.false_eq_true, if_false]
      rw [ih]
      simp [List.countP_cons, isActive, hc]

/-- The loop of `handleClean` without a rank, started from any accumulators. -/
theorem cleanAll_foldl (l : List Todo) (c : Int) (acc : List Todo) :
    l.foldl
      (fun acc todo => if !todo.Completed then (acc.1, acc.2 ++ [todo]) else (acc.1 + 1, acc.2))
      (c, acc) = (c + (l.countP isCompleted : Int), acc ++ l.filter isActive) := by
  induction l generalizing c acc with
  | nil => simp
  | cons t rest ih =>
    rw [List.foldl_cons]
    cases hc : t.Completed
    · simp only [Bool.not_false, if_true]
      rw [ih]
      simp [List.countP_cons, List.filter_cons, isActive, isCompleted, hc]
    · simp only [Bool.not_true, Bool.false_eq_true, if_false]
      rw [ih]
      simp [List.countP_cons, List.filter_cons, isActive, isCompleted, hc]
      omega

/-- Active and completed records together are all the records. -/
theorem countP_active_add_completed (l : List Todo) :
    l.countP isActive + l.countP isCompleted = l.length := by
  induction l with
  | nil => simp
  | cons t rest ih =>
    cases hc : t.Completed <;> simp [List.countP_cons, isActive, isCompleted, hc] <;> omega

/-! ## The handlers, branch by branch -/

/-- An index the active loop of `handleDone` answers holds an active record. -/
theorem doneLoop_get (position : Int) (l : List Todo) (i : Nat)
    (h : doneLoop position l 0 0 = some i) :
    ∃ t, l[i]? = some t ∧ isActive t = true ∧
      ((l.take i).countP isActive : Int) + 1 = position := by
  rw [doneLoop_eq_rankLoop] at h
  exact (rankLoop_start_iff isActive position l i).mp h

/-- An index the active loop of `handleRemove` answers holds an active record. -/
theorem removeLoop_get (position : Int) (l : List Todo) (i : Nat)
    (h : removeLoop position l 0 0 = some i) :
    ∃ t, l[i]? = some t ∧ isActive t = true ∧
      ((l.take i).countP isActive : Int) + 1 = position := by
  rw [removeLoop_eq_rankLoop] at h
  exact (rankLoop_start_iff isActive position l i).mp h

/-- An index the loop of `handleClean` answers holds a completed record. -/
theorem cleanLoop_get (position : Int) (l : List Todo) (i : Nat)
    (h : cleanLoop position l 0 0 = some i) :
    ∃ t, l[i]? = some t ∧ isCompleted t = true ∧
      ((l.take i).countP isCompleted : Int) + 1 = position := by
  rw [cleanLoop_eq_rankLoop] at h
  exact (rankLoop_start_iff isCompleted position l i).mp h

/-- The run of `handleDone` when the rank resolves. -/
theorem handleDone_found (osArgs : List String) (w : World) (arg : String) (position : Int)
    (l : List Todo) (i : Nat) (t : Todo)
    (harg : osArgs[2]? = some arg) (hatoi : Atoi arg = some position) (hpos : 1 ≤ position)
    (hload : loadTodos w.file = .ok ⟨l⟩) (hloop : doneLoop position l 0 0 = some i)
    (hget : l[i]? = some t) :
    handleDone osArgs w =
      match w.writeErr with
      | some err =>
        ⟨[.completed position t.Text, .saveError err], 1,
          some ⟨l.set i { t with Completed := true }⟩⟩
      | none => ⟨[.completed position t.Text], 0, some ⟨l.set i { t with Completed := true }⟩⟩ := by
  have hpos' : ¬ position < 1 := by omega
  simp only [handleDone, harg, hatoi, hload, hloop, hget, hpos', if_false, saveTodos]
  cases w.writeErr <;> rfl

/-- The run of `handleDone` when the rank does not resolve. -/
theorem handleDone_not_found (osArgs : List String) (w : World) (arg : String) (position : Int)
    (l : List Todo)
    (harg : osArgs[2]? = some arg) (hatoi : Atoi arg = some position) (hpos : 1 ≤ position)
    (hload : loadTodos w.file = .ok ⟨l⟩) (hloop : doneLoop position l 0 0 = none) :
    handleDone osArgs w = ⟨[.notFound position], 1, none⟩ := by
  have hpos' : ¬ position < 1 := by omega
  simp only [handleDone, harg, hatoi, hload, hloop, hpos', if_false]

/-- The run of `handleRemove` when the rank resolves. -/
theorem handleRemove_found (osArgs : List String) (w : World) (arg : String) (position : Int)
    (l : List Todo) (i : Nat) (t : Todo)
    (harg : osArgs[2]? = some arg) (hatoi : Atoi arg = some position) (hpos : 1 ≤ position)
    (hload : loadTodos w.file = .ok ⟨l⟩) (hloop : removeLoop position l 0 0 = some i)
    (hget : l[i]? = some t) :
    handleRemove osArgs w =
      match w.writeErr with
      | some err => ⟨[.saveError err], 1, some ⟨l.take i ++ l.drop (i + 1)⟩⟩
      | none => ⟨[.removed position t.Text], 0, some ⟨l.take i ++ l.drop (i + 1)⟩⟩ := by
  have hpos' : ¬ position < 1 := by omega
  simp only [handleRemove, harg, hatoi, hload, hloop, hget, hpos', if_false, saveTodos]
  cases w.writeErr <;> rfl

/-- The run of `handleRemove` when the rank does not resolve. -/
theorem handleRemove_not_found (osArgs : List String) (w : World) (arg : String)
    (position : Int) (l : List Todo)
    (harg : osArgs[2]? = some arg) (hatoi : Atoi arg = some position) (hpos : 1 ≤ position)
    (hload : loadTodos w.file = .ok ⟨l⟩) (hloop : removeLoop position l 0 0 = none) :
    handleRemove osArgs w = ⟨[.notFound position], 1, none⟩ := by
  have hpos' : ¬ position < 1 := by omega
  simp only [handleRemove, harg, hatoi, hload, hloop, hpos', if_false]

/-- The run of `handleClean` with a rank that resolves. -/
theorem handleClean_found (osArgs : List String) (w : World) (arg : String) (position : Int)
    (l : List Todo) (i : Nat) (t : Todo)
    (harg : osArgs[2]? = some arg) (hatoi : Atoi arg = some position) (hpos : 1 ≤ position)
    (hload : loadTodos w.file = .ok ⟨l⟩) (hloop : cleanLoop position l 0 0 = some i)
    (hget : l[i]? = some t) :
    handleClean osArgs w =
      match w.writeErr with
      | some err => ⟨[.saveError err], 1, some ⟨l.take i ++ l.drop (i + 1)⟩⟩
      | none => ⟨[.removedCompleted position t.Text], 0, some ⟨l.take i ++ l.drop (i + 1)⟩⟩ := by
  have hpos' : ¬ position < 1 := by omega
  simp only [handleClean, harg, hatoi, hload, hloop, hget, hpos', if_false, saveTodos]
  cases w.writeErr <;> rfl

/-- The run of `handleClean` with a rank that does not resolve. -/
theorem handleClean_not_found (osArgs : List String) (w : World) (arg : String)
    (position : Int) (l : List Todo)
    (harg : osArgs[2]? = some arg) (hatoi : Atoi arg = some position) (hpos : 1 ≤ position)
    (hload : loadTodos w.file = .ok ⟨l⟩) (hloop : cleanLoop position l 0 0 = none) :
    handleClean osArgs w = ⟨[.completedNotFound position], 1, none⟩ := by
  have hpos' : ¬ position < 1 := by omega
  simp only [handleClean, harg, hatoi, hload, hloop, hpos', if_false]

/-- The run of a rank-addressed handler whose rank is below 1. -/
theorem handle_rank_too_small (osArgs : List String) (w : World) (arg : String)
    (position : Int) (harg : osArgs[2]? = some arg) (hatoi : Atoi arg = some position)
    (hpos : position < 1) :
    handleDone osArgs w = ⟨[.idTooSmall], 1, none⟩ ∧
    handleRemove osArgs w = ⟨[.idTooSmall], 1, none⟩ ∧
    (∀ todoList, loadTodos w.file = .ok todoList →
      handleClean osArgs w = ⟨[.idTooSmall], 1, none⟩) := by
  refine ⟨?_, ?_, ?_⟩
  · simp only [handleDone, harg, hatoi, hpos, if_true]
  · simp only [handleRemove, harg, hatoi, hpos, if_true]
  · intro todoList hload
    simp only [handleClean, harg, hatoi, hload, hpos, if_true]

/-- The run of a rank-addressed handler whose argument is not a number. -/
theorem handle_rank_not_a_number (osArgs : List String) (w : World) (arg : String)
    (harg : osArgs[2]? = some arg) (hatoi : Atoi arg = none) :
    handleDone osArgs w = ⟨[.invalidId arg], 1, none⟩ ∧
    handleRemove osArgs w = ⟨[.invalidId arg], 1, none⟩ ∧
    (∀ todoList, loadTodos w.file = .ok todoList →
      handleClean osArgs w = ⟨[.invalidId arg], 1, none⟩) := by
  refine ⟨?_, ?_, ?_⟩
  · simp only [handleDone, harg, hatoi]
  · simp only [handleRemove, harg, hatoi]
  · intro todoList hload
    simp only [handleClean, harg, hatoi, hload]

/-- A successful `done`: the rank is valid, resolves, and the write went through. -/
theorem handleDone_exit_zero (osArgs : List String) (w : World) (arg : String) (position : Int)
    (l : List Todo)
    (harg : osArgs[2]? = some arg) (hatoi : Atoi arg = some position)
    (hload : loadTodos w.file = .ok ⟨l⟩) (hexit : (handleDone osArgs w).exit = 0) :
    1 ≤ position ∧ w.writeErr = none ∧
      ∃ i t, doneLoop position l 0 0 = some i ∧ l[i]? = some t := by
  by_cases hpos : position < 1
  · rw [(handle_rank_too_small osArgs w arg position harg hatoi hpos).1] at hexit
    simp at hexit
  · have hpos' : 1 ≤ position := by omega
    cases hloop : doneLoop position l 0 0 with
    | none =>
      rw [handleDone_not_found osArgs w arg position l harg hatoi hpos' hload hloop] at hexit
      simp at hexit
    | some i =>
      obtain ⟨t, hget, _, _⟩ := doneLoop_get position l i hloop
      rw [handleDone_found osArgs w arg position l i t harg hatoi hpos' hload hloop hget] at hexit
      cases hw : w.writeErr with
      | some err => rw [hw] at hexit; simp at hexit
      | none => exact ⟨hpos', rfl, i, t, rfl, hget⟩

/-- A successful `remove`: the rank is valid, resolves, and the write went through. -/
theorem handleRemove_exit_zero (osArgs : List String) (w : World) (arg : String)
    (position : Int) (l : List Todo)
    (harg : osArgs[2]? = some arg) (hatoi : Atoi arg = some position)
    (hload : loadTodos w.file = .ok ⟨l⟩) (hexit : (handleRemove osArgs w).exit = 0) :
    1 ≤ position ∧ w.writeErr = none ∧
      ∃ i t, removeLoop position l 0 0 = some i ∧ l[i]? = some t := by
  by_cases hpos : position < 1
  · rw [(handle_rank_too_small osArgs w arg position harg hatoi hpos).2.1] at hexit
    simp at hexit
  · have hpos' : 1 ≤ position := by omega
    cases hloop : removeLoop position l 0 0 with
    | none =>
      rw [handleRemove_not_found osArgs w arg position l harg hatoi hpos' hload hloop] at hexit
      simp at hexit
    | some i =>
      obtain ⟨t, hget, _, _⟩ := removeLoop_get position l i hloop
      rw [handleRemove_found osArgs w arg position l i t harg hatoi hpos' hload hloop hget]
        at hexit
      cases hw : w.writeErr with
      | some err => rw [hw] at hexit; simp at hexit
      | none => exact ⟨hpos', rfl, i, t, rfl, hget⟩

/-- A successful `clean <rank>`: the rank is valid, resolves, and the write went through. -/
theorem handleClean_exit_zero (osArgs : List String) (w : World) (arg : String)
    (position : Int) (l : List Todo)
    (harg : osArgs[2]? = some arg) (hatoi : Atoi arg = some position)
    (hload : loadTodos w.file = .ok ⟨l⟩) (hexit : (handleClean osArgs w).exit = 0) :
    1 ≤ position ∧ w.writeErr = none ∧
      ∃ i t, cleanLoop position l 0 0 = some i ∧ l[i]? = some t := by
  by_cases hpos : position < 1
  · rw [(handle_rank_too_small osArgs w arg position harg hatoi hpos).2.2 ⟨l⟩ hload] at hexit
    simp at hexit
  · have hpos' : 1 ≤ position := by omega
    cases hloop : cleanLoop position l 0 0 with
    | none =>
      rw [handleClean_not_found osArgs w arg position l harg hatoi hpos' hload hloop] at hexit
      simp at hexit
    | some i =>
      obtain ⟨t, hget, _, _⟩ := cleanLoop_get position l i hloop
      rw [handleClean_found osArgs w arg position l i t harg hatoi hpos' hload hloop hget]
        at hexit
      cases hw : w.writeErr with
      | some err => rw [hw] at hexit; simp at hexit
      | none => exact ⟨hpos', rfl, i, t, rfl, hget⟩

/-- The line `handleList` prints at place `n` of the active view. -/
theorem activeLines_get (activeTodos : List Todo) (n : Nat) :
    (activeLines activeTodos)[n]? =
      (activeTodos[n]?).map (fun t => Msg.activeItem ((n : Int) + 1) t.Text) := by
  simp only [activeLines, List.getElem?_map, List.getElem?_enum]
  cases activeTodos[n]? <;> rfl

/-- The line `handleList` prints at place `n` of the completed view. -/
theorem completedLines_get (completedTodos : List Todo) (n : Nat) :
    (completedLines completedTodos)[n]? =
      (completedTodos[n]?).map (fun t => Msg.completedItem ((n : Int) + 1) t.Text) := by
  simp only [completedLines, List.getElem?_map, List.getElem?_enum]
  cases completedTodos[n]? <;> rfl

theorem activeLines_length (activeTodos : List Todo) :
    (activeLines activeTodos).length = activeTodos.length := by
  simp [activeLines, List.enum_length]

/-- Everything `handleList` prints when the collection is not empty. -/
theorem handleList_out (osArgs : List String) (w : World) (l : List Todo)
    (hload : loadTodos w.file = .ok ⟨l⟩) (hne : 0 < l.length) :
    (handleList osArgs w).out =
      (if (l.filter isActive).length > 0 then
          Msg.activeHeader :: activeLines (l.filter isActive)
        else [Msg.noActive]) ++
      (if (decide (osArgs.length > 2) &&
            (osArgs[2]? == some "--all" || osArgs[2]? == some "-a")) &&
            decide ((l.filter isCompleted).length > 0) then
          Msg.completedHeader :: completedLines (l.filter isCompleted)
        else []) := by
  have hlen := countP_active_add_completed l
  rw [List.countP_eq_length_filter, List.countP_eq_length_filter] at hlen
  have hnot : ¬ ((l.filter isActive).length = 0 ∧ (l.filter isCompleted).length = 0) := by
    omega
  simp only [handleList, hload, splitTodos_eq, hnot, if_false]

/-- The run of `handleClean` without a rank. -/
theorem handleClean_all (osArgs : List String) (w : World) (l : List Todo)
    (hargs : osArgs.length < 3) (hload : loadTodos w.file = .ok ⟨l⟩) :
    handleClean osArgs w =
      if (l.countP isCompleted : Int) = 0 then ⟨[.nothingToClean], 0, none⟩
      else
        match w.writeErr with
        | some err => ⟨[.saveError err], 1, some ⟨l.filter isActive⟩⟩
        | none => ⟨[.cleaned (l.countP isCompleted)], 0, some ⟨l.filter isActive⟩⟩ := by
  have harg : osArgs[2]? = none := List.getElem?_eq_none (by omega)
  simp only [handleClean, hload, harg, cleanAll_foldl, saveTodos, zero_add, List.nil_append]
  by_cases h0 : (l.countP isCompleted : Int) = 0
  · simp only [h0, if_true]
  · simp only [h0, if_false]
    cases w.writeErr <;> rfl

/-- Whatever `handleDone` hands to `saveTodos` is the loaded collection with the
record its loop resolved for the parsed rank, an active one, overwritten by its
completed copy. -/
theorem handleDone_saved (osArgs : List String) (w : World) (l : List Todo) (s : TodoList)
    (hload : loadTodos w.file = .ok ⟨l⟩) (hs : (handleDone osArgs w).saved = some s) :
    ∃ arg position i t, osArgs[2]? = some arg ∧ Atoi arg = some position ∧ 1 ≤ position ∧
      doneLoop position l 0 0 = some i ∧ l[i]? = some t ∧ t.Completed = false ∧
      s = ⟨l.set i { t with Completed := true }⟩ := by
  cases harg : osArgs[2]? with
  | none => simp [handleDone, harg] at hs
  | some arg =>
    cases hatoi : Atoi arg with
    | none =>
      rw [(handle_rank_not_a_number osArgs w arg harg hatoi).1] at hs
      simp at hs
    | some position =>
      by_cases hpos : position < 1
      · rw [(handle_rank_too_small osArgs w arg position harg hatoi hpos).1] at hs
        simp at hs
      · have hpos' : 1 ≤ position := by omega
        cases hloop : doneLoop position l 0 0 with
        | none =>
          rw [handleDone_not_found osArgs w arg position l harg hatoi hpos' hload hloop] at hs
          simp at hs
        | some i =>
          obtain ⟨t, hget, hact, _⟩ := doneLoop_get position l i hloop
          rw [handleDone_found osArgs w arg position l i t harg hatoi hpos' hload hloop hget]
            at hs
          refine ⟨arg, position, i, t, rfl, hatoi, hpos', hloop, hget,
            by simpa [isActive] using hact, ?_⟩
          cases hw : w.writeErr <;> rw [hw] at hs <;> simp at hs <;> exact hs.symm

/-- Whatever `handleRemove` hands to `saveTodos` is the loaded collection with
one record deleted. -/
theorem handleRemove_saved (osArgs : List String) (w : World) (l : List Todo) (s : TodoList)
    (hload : loadTodos w.file = .ok ⟨l⟩) (hs : (handleRemove osArgs w).saved = some s) :
    ∃ i, i < l.length ∧ s = ⟨l.take i ++ l.drop (i + 1)⟩ := by
  cases harg : osArgs[2]? with
  | none => simp [handleRemove, harg] at hs
  | some arg =>
    cases hatoi : Atoi arg with
    | none =>
      rw [(handle_rank_not_a_number osArgs w arg harg hatoi).2.1] at hs
      simp at hs
    | some position =>
      by_cases hpos : position < 1
      · rw [(handle_rank_too_small osArgs w arg position harg hatoi hpos).2.1] at hs
        simp at hs
      · have hpos' : 1 ≤ position := by omega
        cases hloop : removeLoop position l 0 0 with
        | none =>
          rw [handleRemove_not_found osArgs w arg position l harg hatoi hpos' hload hloop] at hs
          simp at hs
        | some i =>
          obtain ⟨t, hget, _, _⟩ := removeLoop_get position l i hloop
          rw [handleRemove_found osArgs w arg position l i t harg hatoi hpos' hload hloop hget]
            at hs
          refine ⟨i, (List.getElem?_eq_some.mp hget).1, ?_⟩
          cases hw : w.writeErr <;> rw [hw] at hs <;> simp at hs <;> exact hs.symm

/-- Whatever `handleClean` hands to `saveTodos` is the loaded collection with
one record deleted (with a rank) or its active records (without). -/
theorem handleClean_saved (osArgs : List String) (w : World) (l : List Todo) (s : TodoList)
    (hload : loadTodos w.file = .ok ⟨l⟩) (hs : (handleClean osArgs w).saved = some s) :
    (osArgs.length < 3 ∧ s = ⟨l.filter isActive⟩) ∨
      (3 ≤ osArgs.length ∧ ∃ i, i < l.length ∧ s = ⟨l.take i ++ l.drop (i + 1)⟩) := by
  cases harg : osArgs[2]? with
  | none =>
    have hlen : osArgs.length < 3 := by
      by_contra hcon
      rw [List.getElem?_eq_getElem (by omega)] at harg
      cases harg
    left
    refine ⟨hlen, ?_⟩
    rw [handleClean_all osArgs w l hlen hload] at hs
    by_cases h0 : (l.countP isCompleted : Int) = 0
    · rw [if_pos h0] at hs
      simp at hs
    · rw [if_neg h0] at hs
      cases hw : w.writeErr <;> rw [hw] at hs <;> simp at hs <;> exact hs.symm
  | some arg =>
    have hlen : 3 ≤ osArgs.length := by
      by_contra hcon
      rw [List.getElem?_eq_none (by omega)] at harg
      cases harg
    right
    refine ⟨hlen, ?_⟩
    cases hatoi : Atoi arg with
    | none =>
      rw [(handle_rank_not_a_number osArgs w arg harg hatoi).2.2 ⟨l⟩ hload] at hs
      simp at hs
    | some position =>
      by_cases hpos : position < 1
      · rw [(handle_rank_too_small osArgs w arg position harg hatoi hpos).2.2 ⟨l⟩ hload] at hs
        simp at hs
      · have hpos' : 1 ≤ position := by omega
        cases hloop : cleanLoop position l 0 0 with
        | none =>
          rw [handleClean_not_found osArgs w arg position l harg hatoi hpos' hload hloop] at hs
          simp at hs
        | some i =>
          obtain ⟨t, hget, _, _⟩ := cleanLoop_get position l i hloop
          rw [handleClean_found osArgs w arg position l i t harg hatoi hpos' hload hloop hget]
            at hs
          refine ⟨i, (List.getElem?_eq_some.mp hget).1, ?_⟩
          cases hw : w.writeErr <;> rw [hw] at hs <;> simp at hs <;> exact hs.symm

/-! ## The claims -/

/-- C1: for every collection and rank, when the rank-resolution loop of `done`,
of `remove` (test: not completed) or of `clean <rank>` (test: completed) answers
an index `i`, the record at `i` passes the test and exactly `rank - 1` records at
smaller indices pass it; and the loops of `done` and `remove` give the same
answer for the same rank on the same collection.  (A rank below 1 is never
answered, so the statement needs no bound on the rank.) -/
theorem C1_rank_resolution (l : List Todo) (position : Int) (i : Nat) :
    (doneLoop position l 0 0 = some i →
      ∃ t, l[i]? = some t ∧ t.Completed = false ∧
        ((l.take i).countP isActive : Int) = position - 1) ∧
    (removeLoop position l 0 0 = some i →
      ∃ t, l[i]? = some t ∧ t.Completed = false ∧
        ((l.take i).countP isActive : Int) = position - 1) ∧
    (cleanLoop position l 0 0 = some i →
      ∃ t, l[i]? = some t ∧ t.Completed = true ∧
        ((l.take i).countP isCompleted : Int) = position - 1) ∧
    doneLoop position l 0 0 = removeLoop position l 0 0 := by
  refine ⟨?_, ?_, ?_, ?_⟩
  · intro h
    obtain ⟨t, hget, hpt, hcount⟩ := doneLoop_get position l i h
    exact ⟨t, hget, by simpa [isActive] using hpt, by omega⟩
  · intro h
    obtain ⟨t, hget, hpt, hcount⟩ := removeLoop_get position l i h
    exact ⟨t, hget, by simpa [isActive] using hpt, by omega⟩
  · intro h
    obtain ⟨t, hget, hpt, hcount⟩ := cleanLoop_get position l i h
    exact ⟨t, hget, by simpa [isCompleted] using hpt, by omega⟩
  · rw [doneLoop_eq_rankLoop, removeLoop_eq_rankLoop]

/-- Instance of C1: rank 2 of the sample collection is index 2 for `done`, and
rank 1 of its completed view is index 1 for `clean`. -/
theorem C1_rank_resolution_witness :
    doneLoop 2 sampleTodos 0 0 = some 2 ∧
    (∃ t, sampleTodos[2]? = some t ∧ t.Completed = false ∧
        ((sampleTodos.take 2).countP isActive : Int) = 2 - 1) ∧
    cleanLoop 1 sampleTodos 0 0 = some 1 ∧
    (∃ t, sampleTodos[1]? = some t ∧ t.Completed = true ∧
        ((sampleTodos.take 1).countP isCompleted : Int) = 1 - 1) :=
  ⟨by decide, (C1_rank_resolution sampleTodos 2 2).1 (by decide), by decide,
    (C1_rank_resolution sampleTodos 1 1).2.2.1 (by decide)⟩

/-- C2: for every collection and every rank at least 1, the rank-resolution loop
of `done` and of `remove` fails exactly when the rank exceeds the number of active
records, and that of `clean <rank>` exactly when it exceeds the number of
completed records; the command then prints its not-found error, exits with
status 1 and does not call `saveTodos`, and this is the only way it ends like
that.  In particular `remove 1` without a file prints the not-found error and
saves nothing. -/
theorem C2_not_found (l : List Todo) (position : Int) (hpos : 1 ≤ position) :
    (doneLoop position l 0 0 = none ↔ (l.countP isActive : Int) < position) ∧
    (removeLoop position l 0 0 = none ↔ (l.countP isActive : Int) < position) ∧
    (cleanLoop position l 0 0 = none ↔ (l.countP isCompleted : Int) < position) ∧
    (∀ (osArgs : List String) (w : World) (arg : String),
      osArgs[2]? = some arg → Atoi arg = some position → loadTodos w.file = .ok ⟨l⟩ →
        (handleDone osArgs w = ⟨[.notFound position], 1, none⟩ ↔
          (l.countP isActive : Int) < position) ∧
        (handleRemove osArgs w = ⟨[.notFound position], 1, none⟩ ↔
          (l.countP isActive : Int) < position) ∧
        (handleClean osArgs w = ⟨[.completedNotFound position], 1, none⟩ ↔
          (l.countP isCompleted : Int) < position)) ∧
    (∀ (prog cmd : String) (w : World), w.file = .missing →
      handleRemove [prog, cmd, "1"] w = ⟨[.notFound 1], 1, none⟩) := by
  have hd : doneLoop position l 0 0 = none ↔ (l.countP isActive : Int) < position := by
    rw [doneLoop_eq_rankLoop, rankLoop_eq_none_iff isActive position l 0 0 (by omega)]
    simp
  have hr : removeLoop position l 0 0 = none ↔ (l.countP isActive : Int) < position := by
    rw [removeLoop_eq_rankLoop, rankLoop_eq_none_iff isActive position l 0 0 (by omega)]
    simp
  have hc : cleanLoop position l 0 0 = none ↔ (l.countP isCompleted : Int) < position := by
    rw [cleanLoop_eq_rankLoop, rankLoop_eq_none_iff isCompleted position l 0 0 (by omega)]
    simp
  refine ⟨hd, hr, hc, ?_, ?_⟩
  · intro osArgs w arg harg hatoi hload
    refine ⟨?_, ?_, ?_⟩
    · rw [← hd]
      constructor
      · intro h
        cases hloop : doneLoop position l 0 0 with
        | none => rfl
        | some i =>
          obtain ⟨t, hget, _, _⟩ := doneLoop_get position l i hloop
          rw [handleDone_found osArgs w arg position l i t harg hatoi hpos hload hloop hget] at h
          cases hw : w.writeErr <;> rw [hw] at h <;> simp at h
      · exact handleDone_not_found osArgs w arg position l harg hatoi hpos hload
    · rw [← hr]
      constructor
      · intro h
        cases hloop : removeLoop position l 0 0 with
        | none => rfl
        | some i =>
          obtain ⟨t, hget, _, _⟩ := removeLoop_get position l i hloop
          rw [handleRemove_found osArgs w arg position l i t harg hatoi hpos hload hloop hget]
            at h
          cases hw : w.writeErr <;> rw [hw] at h <;> simp at h
      · exact handleRemove_not_found osArgs w arg position l harg hatoi hpos hload
    · rw [← hc]
      constructor
      · intro h
        cases hloop : cleanLoop position l 0 0 with
        | none => rfl
        | some i =>
          obtain ⟨t, hget, _, _⟩ := cleanLoop_get position l i hloop
          rw [handleClean_found osArgs w arg position l i t harg hatoi hpos hload hloop hget]
            at h
          cases hw : w.writeErr <;> rw [hw] at h <;> simp at h
      · exact handleClean_not_found osArgs w arg position l harg hatoi hpos hload
  · intro prog cmd w hfile
    exact handleRemove_not_found [prog, cmd, "1"] w "1" 1 [] rfl (by decide) (by decide)
      (by rw [hfile]; rfl) rfl

/-- Instance of C2: rank 3 exceeds the two active records of the sample
collection, so the loop of `remove` fails and `remove 3` ends with the not-found
error and saves nothing. -/
theorem C2_not_found_witness :
    (1 : Int) ≤ 3 ∧ removeLoop 3 sampleTodos 0 0 = none ∧
    handleRemove ["godo", "remove", "3"] sampleWorld = ⟨[.notFound 3], 1, none⟩ :=
  ⟨by decide, (C2_not_found sampleTodos 3 (by decide)).2.1.mpr (by decide),
    ((C2_not_found sampleTodos 3 (by decide)).2.2.2.1 ["godo", "remove", "3"] sampleWorld "3"
      rfl (by decide) rfl).2.1.mpr (by decide)⟩

/-- C3 (rank renumbering): for every collection and every rank `k` on which
`done k`, respectively `remove k`, succeeds, every record that was active at a
rank `j > k` before the command (the record at the index `ij` the active loop
answers for `j`) is, in the collection the command saves, the record the active
loop answers for rank `j - 1`: after `done` it is still at index `ij`, after
`remove` it has moved to index `ij - 1`. -/
theorem C3_renumbering (l : List Todo) (k j : Int) (ij : Nat) (osArgs : List String)
    (w : World) (arg : String)
    (harg : osArgs[2]? = some arg) (hatoi : Atoi arg = some k)
    (hload : loadTodos w.file = .ok ⟨l⟩) (hkj : k < j)
    (hij : doneLoop j l 0 0 = some ij) :
    ((handleDone osArgs w).exit = 0 →
      ∃ l', (handleDone osArgs w).saved = some ⟨l'⟩ ∧ l'[ij]? = l[ij]? ∧
        doneLoop (j - 1) l' 0 0 = some ij ∧ removeLoop (j - 1) l' 0 0 = some ij) ∧
    ((handleRemove osArgs w).exit = 0 →
      ∃ l', (handleRemove osArgs w).saved = some ⟨l'⟩ ∧ l'[ij - 1]? = l[ij]? ∧
        doneLoop (j - 1) l' 0 0 = some (ij - 1) ∧
        removeLoop (j - 1) l' 0 0 = some (ij - 1)) := by
  obtain ⟨tj, hgetj, hactj, hcountj⟩ := doneLoop_get j l ij hij
  constructor
  · intro hexit
    obtain ⟨hpos, hw, ik, tk, hloop, hgetk⟩ :=
      handleDone_exit_zero osArgs w arg k l harg hatoi hload hexit
    obtain ⟨tk', hgetk', hactk, hcountk⟩ := doneLoop_get k l ik hloop
    have htk : tk' = tk := by rw [hgetk] at hgetk'; exact (Option.some.inj hgetk').symm
    subst htk
    have hlt : ik < ij := by
      by_contra hcon
      have := countP_take_mono isActive l ij ik (by omega)
      omega
    have hsaved := handleDone_found osArgs w arg k l ik tk' harg hatoi hpos hload hloop hgetk
    rw [hw] at hsaved
    have hget' : (l.set ik { tk' with Completed := true })[ij]? = l[ij]? :=
      List.getElem?_set_ne (by omega)
    have hcount := countP_take_set isActive l ik ij tk' { tk' with Completed := true }
      hgetk hactk (by simp [isActive]) hlt
    have hrank : rankLoop isActive (j - 1) (l.set ik { tk' with Completed := true }) 0 0
        = some ij := by
      rw [rankLoop_start_iff]
      exact ⟨tj, by rw [hget', hgetj], hactj, by omega⟩
    refine ⟨l.set ik { tk' with Completed := true }, by rw [hsaved], hget', ?_, ?_⟩
    · rw [doneLoop_eq_rankLoop]; exact hrank
    · rw [removeLoop_eq_rankLoop]; exact hrank
  · intro hexit
    obtain ⟨hpos, hw, ik, tk, hloop, hgetk⟩ :=
      handleRemove_exit_zero osArgs w arg k l harg hatoi hload hexit
    obtain ⟨tk', hgetk', hactk, hcountk⟩ := removeLoop_get k l ik hloop
    have htk : tk' = tk := by rw [hgetk] at hgetk'; exact (Option.some.inj hgetk').symm
    subst htk
    have hlt : ik < ij := by
      by_contra hcon
      have := countP_take_mono isActive l ij ik (by omega)
      omega
    have hsaved := handleRemove_found osArgs w arg k l ik tk' harg hatoi hpos hload hloop hgetk
    rw [hw] at hsaved
    have hget' : (l.take ik ++ l.drop (ik + 1))[ij - 1]? = l[ij]? := by
      rw [getElem?_take_append_drop, if_neg (by omega)]
      congr 1
      omega
    have hcount := countP_take_erase isActive l ik ij tk' hgetk hactk hlt
    have hrank : rankLoop isActive (j - 1) (l.take ik ++ l.drop (ik + 1)) 0 0
        = some (ij - 1) := by
      rw [rankLoop_start_iff]
      exact ⟨tj, by rw [hget', hgetj], hactj, by omega⟩
    refine ⟨l.take ik ++ l.drop (ik + 1), by rw [hsaved], hget', ?_, ?_⟩
    · rw [doneLoop_eq_rankLoop]; exact hrank
    · rw [removeLoop_eq_rankLoop]; exact hrank

/-- Instance of C3: in the sample collection "C" is active at rank 2; after
`done 1`, and after `remove 1`, the saved collection has it at rank 1. -/
theorem C3_renumbering_witness :
    (∃ l', (handleDone ["godo", "done", "1"] sampleWorld).saved = some ⟨l'⟩ ∧
        l'[2]? = sampleTodos[2]? ∧
        doneLoop (2 - 1) l' 0 0 = some 2 ∧ removeLoop (2 - 1) l' 0 0 = some 2) ∧
    (∃ l', (handleRemove ["godo", "remove", "1"] sampleWorld).saved = some ⟨l'⟩ ∧
        l'[2 - 1]? = sampleTodos[2]? ∧
        doneLoop (2 - 1) l' 0 0 = some (2 - 1) ∧ removeLoop (2 - 1) l' 0 0 = some (2 - 1)) :=
  ⟨(C3_renumbering sampleTodos 1 2 2 ["godo", "done", "1"] sampleWorld "1" rfl (by decide) rfl
      (by decide) (by decide)).1 (by decide),
    (C3_renumbering sampleTodos 1 2 2 ["godo", "remove", "1"] sampleWorld "1" rfl (by decide)
      rfl (by decide) (by decide)).2 (by decide)⟩

/-- C4: the ranks `list` prints agree with rank resolution.  The active view
and the completed view that `handleList` builds are the collection filtered by
"not completed" and by "completed", so both keep the collection's relative
order.  For every `i` from 1 to the number of active records, the record at
place `i` of the active view, whose text `list` prints as `[i]`, is the record
at the index the loops of `done` and `remove` answer for `i`; for every `i` from
1 to the number of completed records, the record at place `i` of the completed
view, whose text `list --all` prints as `[i]`, is the record at the index the
loop of `clean` answers for `i`. -/
theorem C4_list_ranks (l : List Todo) (osArgs : List String) (w : World)
    (hload : loadTodos w.file = .ok ⟨l⟩) :
    (splitTodos l).1 = l.filter isActive ∧ (splitTodos l).2 = l.filter isCompleted ∧
    (∀ i : Nat, 1 ≤ i → i ≤ l.countP isActive →
      ∃ idx t, doneLoop i l 0 0 = some idx ∧ removeLoop i l 0 0 = some idx ∧
        l[idx]? = some t ∧ (splitTodos l).1[i - 1]? = some t ∧
        (handleList osArgs w).out[i]? = some (.activeItem i t.Text)) ∧
    (∀ i : Nat, 1 ≤ i → i ≤ l.countP isCompleted →
      ∃ idx t, cleanLoop i l 0 0 = some idx ∧
        l[idx]? = some t ∧ (splitTodos l).2[i - 1]? = some t ∧
        (osArgs[2]? = some "--all" ∨ osArgs[2]? = some "-a" →
          (handleList osArgs w).out[l.countP isActive + 1 + i]? =
            some (.completedItem i t.Text))) := by
  refine ⟨by rw [splitTodos_eq], by rw [splitTodos_eq], ?_, ?_⟩
  · intro i h1 h2
    obtain ⟨idx, hidx⟩ :=
      rankLoop_resolves isActive i l (by exact_mod_cast h1) (by exact_mod_cast h2)
    obtain ⟨t, hget, hpt, hcount⟩ := (rankLoop_start_iff isActive i l idx).mp hidx
    have hrank : (l.take idx).countP isActive = i - 1 := by omega
    have hview := getElem?_filter_rank isActive l idx t hget hpt
    rw [hrank] at hview
    have hlen : 0 < l.length := by
      have := countP_active_add_completed l
      omega
    have hpos : (l.filter isActive).length > 0 := by
      rw [← List.countP_eq_length_filter]; omega
    refine ⟨idx, t, by rw [doneLoop_eq_rankLoop]; exact hidx,
      by rw [removeLoop_eq_rankLoop]; exact hidx, hget, by rw [splitTodos_eq]; exact hview, ?_⟩
    rw [handleList_out osArgs w l hload hlen, if_pos hpos]
    obtain ⟨n, rfl⟩ : ∃ n, i = n + 1 := ⟨i - 1, by omega⟩
    have hn : n < (activeLines (l.filter isActive)).length := by
      rw [activeLines_length, ← List.countP_eq_length_filter]; omega
    rw [List.cons_append, List.getElem?_cons_succ, List.getElem?_append_left hn,
      activeLines_get]
    simp only [Nat.add_sub_cancel] at hview
    rw [hview]
    simp
  · intro i h1 h2
    obtain ⟨idx, hidx⟩ :=
      rankLoop_resolves isCompleted i l (by exact_mod_cast h1) (by exact_mod_cast h2)
    obtain ⟨t, hget, hpt, hcount⟩ := (rankLoop_start_iff isCompleted i l idx).mp hidx
    have hrank : (l.take idx).countP isCompleted = i - 1 := by omega
    have hview := getElem?_filter_rank isCompleted l idx t hget hpt
    rw [hrank] at hview
    have hlen : 0 < l.length := by
      have := countP_active_add_completed l
      omega
    have hpos : (l.filter isCompleted).length > 0 := by
      rw [← List.countP_eq_length_filter]; omega
    refine ⟨idx, t, by rw [cleanLoop_eq_rankLoop]; exact hidx, hget,
      by rw [splitTodos_eq]; exact hview, ?_⟩
    intro hall
    have hshow : (decide (osArgs.length > 2) &&
        (osArgs[2]? == some "--all" || osArgs[2]? == some "-a")) = true := by
      have h3 : osArgs.length > 2 := by
        by_contra hcon
        have : osArgs[2]? = none := List.getElem?_eq_none (by omega)
        rcases hall with h | h <;> rw [this] at h <;> cases h
      rcases hall with h | h <;> simp [h, h3]
    rw [handleList_out osArgs w l hload hlen, hshow]
    simp only [Bool.true_and, decide_eq_true_eq, hpos, if_true]
    obtain ⟨n, rfl⟩ : ∃ n, i = n + 1 := ⟨i - 1, by omega⟩
    simp only [Nat.add_sub_cancel] at hview
    have hfirst : (if (l.filter isActive).length > 0 then
          Msg.activeHeader :: activeLines (l.filter isActive)
        else [Msg.noActive]).length = l.countP isActive + 1 := by
      rw [List.countP_eq_length_filter]
      by_cases ha : (l.filter isActive).length > 0
      · rw [if_pos ha, List.length_cons, activeLines_length]
      · rw [if_neg ha]
        simp only [List.length_singleton]
        omega
    rw [List.getElem?_append_right (by rw [hfirst]; omega), hfirst]
    have hsub : l.countP isActive + 1 + (n + 1) - (l.countP isActive + 1) = n + 1 := by omega
    rw [hsub, List.getElem?_cons_succ, completedLines_get, hview]
    simp

/-- Instance of C4 on the sample collection with `list --all`. -/
theorem C4_list_ranks_witness :
    (splitTodos sampleTodos).1 = sampleTodos.filter isActive ∧
    (∃ idx t, doneLoop 2 sampleTodos 0 0 = some idx ∧ removeLoop 2 sampleTodos 0 0 = some idx ∧
        sampleTodos[idx]? = some t ∧ (splitTodos sampleTodos).1[2 - 1]? = some t ∧
        (handleList ["godo", "list", "--all"] sampleWorld).out[2]? =
          some (.activeItem 2 t.Text)) :=
  ⟨(C4_list_ranks sampleTodos ["godo", "list", "--all"] sampleWorld rfl).1,
    (C4_list_ranks sampleTodos ["godo", "list", "--all"] sampleWorld rfl).2.2.1 2
      (by decide) (by decide)⟩

/-- Against C5 as stated: on a collection whose only record is active, `clean`
without a rank exits with status 0 having saved no collection and printed no
count: it prints "No completed todos to clean" and returns before `saveTodos`. -/
theorem C5_counterexample_nothing_completed :
    handleClean ["godo", "clean"] ⟨.holds ⟨[todoA]⟩, none, 9⟩ = ⟨[.nothingToClean], 0, none⟩ ∧
    ¬ ((handleClean ["godo", "clean"] ⟨.holds ⟨[todoA]⟩, none, 9⟩).saved
          = some ⟨[todoA].filter isActive⟩ ∧
        (handleClean ["godo", "clean"] ⟨.holds ⟨[todoA]⟩, none, 9⟩).out
          = [.cleaned (([todoA].countP isCompleted : Nat) : Int)]) := by
  decide

/-- C5, amended: `clean` without a rank, on a collection with at least one
completed record, hands to `saveTodos` exactly the records with
`Completed = false` in their original relative order (so no completed record
remains and every active record is kept), and, the write succeeding, reports
the number of records that were completed, which is the old length minus the
new length.  On a collection without a completed record it saves nothing (the
stored collection, which already is its own active sub-sequence, stays as it
is) and prints "No completed todos to clean" instead of a count. -/
theorem C5_clean_all (l : List Todo) (osArgs : List String) (w : World)
    (hargs : osArgs.length < 3) (hload : loadTodos w.file = .ok ⟨l⟩) :
    (0 < l.countP isCompleted →
      (handleClean osArgs w).saved = some ⟨l.filter isActive⟩ ∧
      (∀ t ∈ l.filter isActive, t.Completed = false) ∧
      (∀ t ∈ l, t.Completed = false → t ∈ l.filter isActive) ∧
      List.Sublist (l.filter isActive) l ∧
      (w.writeErr = none →
        handleClean osArgs w =
          ⟨[.cleaned (l.countP isCompleted)], 0, some ⟨l.filter isActive⟩⟩) ∧
      (l.countP isCompleted : Int) = (l.length : Int) - ((l.filter isActive).length : Int)) ∧
    (l.countP isCompleted = 0 →
      handleClean osArgs w = ⟨[.nothingToClean], 0, none⟩ ∧ l.filter isActive = l) := by
  have hrun := handleClean_all osArgs w l hargs hload
  have hlen := countP_active_add_completed l
  constructor
  · intro hpos
    have h0 : ¬ (l.countP isCompleted : Int) = 0 := by omega
    rw [if_neg h0] at hrun
    refine ⟨?_, ?_, ?_, List.filter_sublist l, ?_, ?_⟩
    · rw [hrun]; cases w.writeErr <;> rfl
    · intro t ht
      have := (List.mem_filter.mp ht).2
      simpa [isActive] using this
    · intro t ht hc
      exact List.mem_filter.mpr ⟨ht, by simp [isActive, hc]⟩
    · intro hw
      rw [hrun, hw]
    · rw [← List.countP_eq_length_filter]
      omega
  · intro hzero
    have h0 : (l.countP isCompleted : Int) = 0 := by omega
    rw [if_pos h0] at hrun
    refine ⟨hrun, ?_⟩
    rw [List.filter_eq_self]
    intro t ht
    have := (List.countP_eq_zero.mp hzero) t ht
    simpa [isActive, isCompleted] using this

/-- Instance of C5 (amended): `clean` on the sample collection saves the two
active records and reports one removed. -/
theorem C5_clean_all_witness :
    ["godo", "clean"].length < 3 ∧ 0 < sampleTodos.countP isCompleted ∧
    handleClean ["godo", "clean"] sampleWorld =
      ⟨[.cleaned (sampleTodos.countP isCompleted)], 0,
        some ⟨sampleTodos.filter isActive⟩⟩ :=
  ⟨by decide, by decide,
    ((C5_clean_all sampleTodos ["godo", "clean"] sampleWorld (by decide) rfl).1
      (by decide)).2.2.2.2.1 rfl⟩

/-- C6: for every collection and rank on which `remove <rank>`, respectively
`clean <rank>`, succeeds, the collection saved is the original one with exactly
the record at the resolved index `i` deleted: it is one record shorter, every
place before `i` holds the record it held, every place from `i` on holds the
record that was one place further, and the text reported is the text of the
record that was at `i`. -/
theorem C6_delete_frame (l : List Todo) (position : Int) (osArgs : List String) (w : World)
    (arg : String) (harg : osArgs[2]? = some arg) (hatoi : Atoi arg = some position)
    (hload : loadTodos w.file = .ok ⟨l⟩) :
    ((handleRemove osArgs w).exit = 0 →
      ∃ i t l', removeLoop position l 0 0 = some i ∧ l[i]? = some t ∧
        handleRemove osArgs w = ⟨[.removed position t.Text], 0, some ⟨l'⟩⟩ ∧
        l'.length + 1 = l.length ∧ l' = l.eraseIdx i ∧
        (∀ n, n < i → l'[n]? = l[n]?) ∧ (∀ n, i ≤ n → l'[n]? = l[n + 1]?)) ∧
    ((handleClean osArgs w).exit = 0 →
      ∃ i t l', cleanLoop position l 0 0 = some i ∧ l[i]? = some t ∧
        handleClean osArgs w = ⟨[.removedCompleted position t.Text], 0, some ⟨l'⟩⟩ ∧
        l'.length + 1 = l.length ∧ l' = l.eraseIdx i ∧
        (∀ n, n < i → l'[n]? = l[n]?) ∧ (∀ n, i ≤ n → l'[n]? = l[n + 1]?)) := by
  constructor
  · intro hexit
    obtain ⟨hpos, hw, i, t, hloop, hget⟩ :=
      handleRemove_exit_zero osArgs w arg position l harg hatoi hload hexit
    have hrun := handleRemove_found osArgs w arg position l i t harg hatoi hpos hload hloop hget
    rw [hw] at hrun
    have hi : i < l.length := (List.getElem?_eq_some.mp hget).1
    refine ⟨i, t, l.take i ++ l.drop (i + 1), hloop, hget, hrun,
      length_take_append_drop l i hi, (List.eraseIdx_eq_take_drop_succ l i).symm, ?_, ?_⟩
    · intro n hn
      rw [getElem?_take_append_drop, if_pos hn]
    · intro n hn
      rw [getElem?_take_append_drop, if_neg (by omega)]
  · intro hexit
    obtain ⟨hpos, hw, i, t, hloop, hget⟩ :=
      handleClean_exit_zero osArgs w arg position l harg hatoi hload hexit
    have hrun := handleClean_found osArgs w arg position l i t harg hatoi hpos hload hloop hget
    rw [hw] at hrun
    have hi : i < l.length := (List.getElem?_eq_some.mp hget).1
    refine ⟨i, t, l.take i ++ l.drop (i + 1), hloop, hget, hrun,
      length_take_append_drop l i hi, (List.eraseIdx_eq_take_drop_succ l i).symm, ?_, ?_⟩
    · intro n hn
      rw [getElem?_take_append_drop, if_pos hn]
    · intro n hn
      rw [getElem?_take_append_drop, if_neg (by omega)]

/-- Instance of C6: `remove 1` and `clean 1` on the sample collection. -/
theorem C6_delete_frame_witness :
    (∃ i t l', removeLoop 1 sampleTodos 0 0 = some i ∧ sampleTodos[i]? = some t ∧
        handleRemove ["godo", "remove", "1"] sampleWorld =
          ⟨[.removed 1 t.Text], 0, some ⟨l'⟩⟩ ∧
        l'.length + 1 = sampleTodos.length ∧ l' = sampleTodos.eraseIdx i ∧
        (∀ n, n < i → l'[n]? = sampleTodos[n]?) ∧
        (∀ n, i ≤ n → l'[n]? = sampleTodos[n + 1]?)) ∧
    (∃ i t l', cleanLoop 1 sampleTodos 0 0 = some i ∧ sampleTodos[i]? = some t ∧
        handleClean ["godo", "clean", "1"] sampleWorld =
          ⟨[.removedCompleted 1 t.Text], 0, some ⟨l'⟩⟩ ∧
        l'.length + 1 = sampleTodos.length ∧ l' = sampleTodos.eraseIdx i ∧
        (∀ n, n < i → l'[n]? = sampleTodos[n]?) ∧
        (∀ n, i ≤ n → l'[n]? = sampleTodos[n + 1]?)) :=
  ⟨(C6_delete_frame sampleTodos 1 ["godo", "remove", "1"] sampleWorld "1" rfl (by decide)
      rfl).1 (by decide),
    (C6_delete_frame sampleTodos 1 ["godo", "clean", "1"] sampleWorld "1" rfl (by decide)
      rfl).2 (by decide)⟩

/-- C7: `add`, given at least one text argument, a file that loads and a write
that succeeds: the collection saved is the original one followed by one new
record with the joined text and `Completed = false`; the rank reported is the
number of active records after the insertion (one more than before), and the
active loops of `done` and `remove` answer the new record's index, the last
one, for that rank. -/
theorem C7_add (l : List Todo) (osArgs : List String) (w : World)
    (hargs : 3 ≤ osArgs.length) (hload : loadTodos w.file = .ok ⟨l⟩)
    (hw : w.writeErr = none) :
    handleAdd osArgs w =
      ⟨[.added ((l ++ [Todo.mk (" ".intercalate (osArgs.drop 2)) false w.now]).countP isActive)
          (" ".intercalate (osArgs.drop 2))], 0,
        some ⟨l ++ [Todo.mk (" ".intercalate (osArgs.drop 2)) false w.now]⟩⟩ ∧
    (l ++ [Todo.mk (" ".intercalate (osArgs.drop 2)) false w.now]).countP isActive
      = l.countP isActive + 1 ∧
    doneLoop ((l ++ [Todo.mk (" ".intercalate (osArgs.drop 2)) false w.now]).countP isActive)
      (l ++ [Todo.mk (" ".intercalate (osArgs.drop 2)) false w.now]) 0 0 = some l.length ∧
    removeLoop ((l ++ [Todo.mk (" ".intercalate (osArgs.drop 2)) false w.now]).countP isActive)
      (l ++ [Todo.mk (" ".intercalate (osArgs.drop 2)) false w.now]) 0 0 = some l.length := by
  have hlen : ¬ osArgs.length < 3 := by omega
  have hcount : ∀ x : Todo, x.Completed = false →
      (l ++ [x]).countP isActive = l.countP isActive + 1 := by
    intro x hx
    simp [List.countP_append, isActive, hx]
  have hrank : ∀ x : Todo, x.Completed = false →
      rankLoop isActive ((l ++ [x]).countP isActive) (l ++ [x]) 0 0 = some l.length := by
    intro x hx
    rw [rankLoop_start_iff]
    refine ⟨x, by simp, by simp [isActive, hx], ?_⟩
    rw [hcount x hx]
    simp
  refine ⟨?_, hcount (Todo.mk _ false _) rfl, ?_, ?_⟩
  · simp only [handleAdd, hlen, if_false, hload, saveTodos, hw, activeCount_foldl, zero_add]
  · rw [doneLoop_eq_rankLoop]; exact hrank (Todo.mk _ false _) rfl
  · rw [removeLoop_eq_rankLoop]; exact hrank (Todo.mk _ false _) rfl

/-- Instance of C7: adding "x y" to the sample collection reports rank 3 and
the active loops answer index 3 for it. -/
theorem C7_add_witness :
    handleAdd ["godo", "add", "x", "y"] sampleWorld =
      ⟨[.added 3 "x y"], 0, some ⟨sampleTodos ++ [⟨"x y", false, 9⟩]⟩⟩ ∧
    doneLoop 3 (sampleTodos ++ [⟨"x y", false, 9⟩]) 0 0 = some 3 :=
  ⟨(C7_add sampleTodos ["godo", "add", "x", "y"] sampleWorld (by decide) rfl rfl).1,
    (C7_add sampleTodos ["godo", "add", "x", "y"] sampleWorld (by decide) rfl rfl).2.2.1⟩

/-- Against C8 as stated: `add` with one empty argument, and `add` with one
argument of two blanks, are accepted: each exits with status 0 and saves a
collection holding a record whose text is empty, respectively only blanks. -/
theorem C8_counterexample_blank_text :
    handleAdd ["godo", "add", ""] emptyWorld =
      ⟨[.added 1 ""], 0, some ⟨[Todo.mk "" false 9]⟩⟩ ∧
    handleAdd ["godo", "add", "  "] emptyWorld =
      ⟨[.added 1 "  "], 0, some ⟨[Todo.mk "  " false 9]⟩⟩ := by
  decide

/-- C8, amended: `add` requires at least one argument after the command name.
With none it is rejected before the file is loaded and nothing is appended or
saved.  With at least one, the text is the arguments joined by single blanks,
taken as it is (it is not trimmed and not tested for emptiness), and the record
with that text is appended to the loaded collection and handed to `saveTodos`. -/
theorem C8_add_requires_argument (osArgs : List String) (w : World) :
    (osArgs.length < 3 → handleAdd osArgs w = ⟨[.provideText, .usageAdd], 1, none⟩) ∧
    (3 ≤ osArgs.length → ∀ l, loadTodos w.file = .ok ⟨l⟩ →
      (handleAdd osArgs w).saved =
        some ⟨l ++ [Todo.mk (" ".intercalate (osArgs.drop 2)) false w.now]⟩) := by
  constructor
  · intro h
    simp only [handleAdd, h, if_true]
  · intro h l hload
    have hlen : ¬ osArgs.length < 3 := by omega
    simp only [handleAdd, hlen, if_false, hload, saveTodos]
    cases w.writeErr <;> rfl

/-- Instance of C8 (amended): `add` alone is rejected; `add ""` appends a
record with empty text. -/
theorem C8_add_requires_argument_witness :
    handleAdd ["godo", "add"] sampleWorld = ⟨[.provideText, .usageAdd], 1, none⟩ ∧
    (handleAdd ["godo", "add", ""] sampleWorld).saved =
      some ⟨sampleTodos ++ [Todo.mk (" ".intercalate (["godo", "add", ""].drop 2)) false
        sampleWorld.now]⟩ :=
  ⟨(C8_add_requires_argument ["godo", "add"] sampleWorld).1 (by decide),
    (C8_add_requires_argument ["godo", "add", ""] sampleWorld).2 (by decide) sampleTodos rfl⟩

/-- C9: for `done`, `remove` and `clean <rank>`, a rank argument that
`strconv.Atoi` rejects (not a number) or that parses to a value below 1 (zero
or negative) ends the command with one error message and status 1 without
`saveTodos` being called.  The message is fixed by the argument alone: the
outcome is the same whatever the file holds, so the rank-resolution loop has no
part in it (`clean` loads the file first and reports a load error instead when
the load fails). -/
theorem C9_invalid_rank (osArgs : List String) (arg : String)
    (harg : osArgs[2]? = some arg)
    (hbad : Atoi arg = none ∨ ∃ n, Atoi arg = some n ∧ n < 1) :
    ∃ m, (m = Msg.invalidId arg ∨ m = Msg.idTooSmall) ∧ ∀ w : World,
      handleDone osArgs w = ⟨[m], 1, none⟩ ∧
      handleRemove osArgs w = ⟨[m], 1, none⟩ ∧
      (∀ todoList, loadTodos w.file = .ok todoList → handleClean osArgs w = ⟨[m], 1, none⟩) ∧
      (∀ err, loadTodos w.file = .error err →
        handleClean osArgs w = ⟨[.loadError err], 1, none⟩) := by
  have hclean : ∀ (w : World) (err : String), loadTodos w.file = .error err →
      handleClean osArgs w = ⟨[.loadError err], 1, none⟩ := by
    intro w err herr
    simp only [handleClean, herr]
  rcases hbad with hnone | ⟨n, hsome, hn⟩
  · refine ⟨Msg.invalidId arg, Or.inl rfl, fun w => ?_⟩
    obtain ⟨h1, h2, h3⟩ := handle_rank_not_a_number osArgs w arg harg hnone
    exact ⟨h1, h2, h3, hclean w⟩
  · refine ⟨Msg.idTooSmall, Or.inr rfl, fun w => ?_⟩
    obtain ⟨h1, h2, h3⟩ := handle_rank_too_small osArgs w arg n harg hsome hn
    exact ⟨h1, h2, h3, hclean w⟩

/-- Instance of C9: the arguments "0", "-4" and "abc". -/
theorem C9_invalid_rank_witness :
    (Atoi "0" = some 0 ∧ Atoi "-4" = some (-4) ∧ Atoi "abc" = none) ∧
    (∃ m, (m = Msg.invalidId "0" ∨ m = Msg.idTooSmall) ∧ ∀ w : World,
      handleDone ["godo", "done", "0"] w = ⟨[m], 1, none⟩ ∧
      handleRemove ["godo", "done", "0"] w = ⟨[m], 1, none⟩ ∧
      (∀ todoList, loadTodos w.file = .ok todoList →
        handleClean ["godo", "done", "0"] w = ⟨[m], 1, none⟩) ∧
      (∀ err, loadTodos w.file = .error err →
        handleClean ["godo", "done", "0"] w = ⟨[.loadError err], 1, none⟩)) ∧
    (∃ m, (m = Msg.invalidId "-4" ∨ m = Msg.idTooSmall) ∧ ∀ w : World,
      handleDone ["godo", "rm", "-4"] w = ⟨[m], 1, none⟩ ∧
      handleRemove ["godo", "rm", "-4"] w = ⟨[m], 1, none⟩ ∧
      (∀ todoList, loadTodos w.file = .ok todoList →
        handleClean ["godo", "rm", "-4"] w = ⟨[m], 1, none⟩) ∧
      (∀ err, loadTodos w.file = .error err →
        handleClean ["godo", "rm", "-4"] w = ⟨[.loadError err], 1, none⟩)) ∧
    (∃ m, (m = Msg.invalidId "abc" ∨ m = Msg.idTooSmall) ∧ ∀ w : World,
      handleDone ["godo", "c", "abc"] w = ⟨[m], 1, none⟩ ∧
      handleRemove ["godo", "c", "abc"] w = ⟨[m], 1, none⟩ ∧
      (∀ todoList, loadTodos w.file = .ok todoList →
        handleClean ["godo", "c", "abc"] w = ⟨[m], 1, none⟩) ∧
      (∀ err, loadTodos w.file = .error err →
        handleClean ["godo", "c", "abc"] w = ⟨[.loadError err], 1, none⟩)) :=
  ⟨by decide,
    C9_invalid_rank ["godo", "done", "0"] "0" rfl (Or.inr ⟨0, by decide, by decide⟩),
    C9_invalid_rank ["godo", "rm", "-4"] "-4" rfl (Or.inr ⟨-4, by decide, by decide⟩),
    C9_invalid_rank ["godo", "c", "abc"] "abc" rfl (Or.inl (by decide))⟩

/-- C10: for every collection the file holds.  `done` never changes the length:
whatever `done` saves is the original collection in which the record at the
index its loop resolved for the given rank, an active record, has `Completed`
set to true, every other place holding the record it held, so the length is the
original one; and a successful `done` does save exactly that.  Whatever
`remove` saves is exactly one record shorter, and a successful `remove` does
save; whatever `clean` saves is no longer than the original, a successful
`clean <rank>` saves a collection exactly one record shorter, and `clean`
without a rank saves the active records when some record is completed and
nothing otherwise.  A command that saves nothing leaves the collection as it
is. -/
theorem C10_lengths (l : List Todo) (osArgs : List String) (w : World)
    (hload : loadTodos w.file = .ok ⟨l⟩) :
    (∀ s, (handleDone osArgs w).saved = some s →
      s.Todos.length = l.length ∧
      ∃ arg position i t, osArgs[2]? = some arg ∧ Atoi arg = some position ∧
        doneLoop position l 0 0 = some i ∧ l[i]? = some t ∧ t.Completed = false ∧
        s.Todos = l.set i { t with Completed := true } ∧
        s.Todos[i]? = some { t with Completed := true } ∧
        (∀ n, n ≠ i → s.Todos[n]? = l[n]?)) ∧
    ((handleDone osArgs w).exit = 0 →
      ∃ arg position i t, osArgs[2]? = some arg ∧ Atoi arg = some position ∧
        doneLoop position l 0 0 = some i ∧ l[i]? = some t ∧ t.Completed = false ∧
        (handleDone osArgs w).saved = some ⟨l.set i { t with Completed := true }⟩ ∧
        handleDone osArgs w =
          ⟨[.completed position t.Text], 0, some ⟨l.set i { t with Completed := true }⟩⟩) ∧
    (∀ s, (handleRemove osArgs w).saved = some s → s.Todos.length + 1 = l.length) ∧
    ((handleRemove osArgs w).exit = 0 → ∃ s, (handleRemove osArgs w).saved = some s) ∧
    (∀ s, (handleClean osArgs w).saved = some s → s.Todos.length ≤ l.length) ∧
    (3 ≤ osArgs.length → (handleClean osArgs w).exit = 0 →
      ∃ s, (handleClean osArgs w).saved = some s ∧ s.Todos.length + 1 = l.length) ∧
    (osArgs.length < 3 →
      (handleClean osArgs w).saved =
          (if l.countP isCompleted = 0 then none else some ⟨l.filter isActive⟩) ∧
        (l.filter isActive).length ≤ l.length) := by
  refine ⟨?_, ?_, ?_, ?_, ?_, ?_, ?_⟩
  · intro s hs
    obtain ⟨arg, position, i, t, harg, hatoi, _, hloop, hget, hact, rfl⟩ :=
      handleDone_saved osArgs w l s hload hs
    have hi : i < l.length := (List.getElem?_eq_some.mp hget).1
    refine ⟨by simp, arg, position, i, t, harg, hatoi, hloop, hget, hact, rfl, ?_, ?_⟩
    · show (l.set i { t with Completed := true })[i]? = some { t with Completed := true }
      exact List.getElem?_set_eq_of_lt _ hi
    · intro n hn
      show (l.set i { t with Completed := true })[n]? = l[n]?
      exact List.getElem?_set_ne (Ne.symm hn)
  · intro hexit
    cases harg : osArgs[2]? with
    | none => simp [handleDone, harg] at hexit
    | some arg =>
      cases hatoi : Atoi arg with
      | none =>
        rw [(handle_rank_not_a_number osArgs w arg harg hatoi).1] at hexit
        simp at hexit
      | some position =>
        obtain ⟨hpos, hw, i, t, hloop, hget⟩ :=
          handleDone_exit_zero osArgs w arg position l harg hatoi hload hexit
        obtain ⟨t', hget', hact, _⟩ := doneLoop_get position l i hloop
        have ht : t' = t := by rw [hget] at hget'; exact (Option.some.inj hget').symm
        subst ht
        have hrun :=
          handleDone_found osArgs w arg position l i t' harg hatoi hpos hload hloop hget
        rw [hw] at hrun
        exact ⟨arg, position, i, t', rfl, hatoi, hloop, hget, by simpa [isActive] using hact,
          by rw [hrun], hrun⟩
  · intro s hs
    obtain ⟨i, hi, rfl⟩ := handleRemove_saved osArgs w l s hload hs
    exact length_take_append_drop l i hi
  · intro hexit
    cases harg : osArgs[2]? with
    | none => simp [handleRemove, harg] at hexit
    | some arg =>
      cases hatoi : Atoi arg with
      | none =>
        rw [(handle_rank_not_a_number osArgs w arg harg hatoi).2.1] at hexit
        simp at hexit
      | some position =>
        obtain ⟨hpos, hw, i, t, hloop, hget⟩ :=
          handleRemove_exit_zero osArgs w arg position l harg hatoi hload hexit
        refine ⟨⟨l.take i ++ l.drop (i + 1)⟩, ?_⟩
        rw [handleRemove_found osArgs w arg position l i t harg hatoi hpos hload hloop hget, hw]
  · intro s hs
    rcases handleClean_saved osArgs w l s hload hs with ⟨_, rfl⟩ | ⟨_, i, hi, rfl⟩
    · exact List.length_filter_le isActive l
    · have := length_take_append_drop l i hi
      show (l.take i ++ l.drop (i + 1)).length ≤ l.length
      omega
  · intro hlen hexit
    have harg : osArgs[2]? = some osArgs[2] := List.getElem?_eq_getElem (by omega)
    cases hatoi : Atoi osArgs[2] with
    | none =>
      rw [(handle_rank_not_a_number osArgs w _ harg hatoi).2.2 ⟨l⟩ hload] at hexit
      simp at hexit
    | some position =>
      obtain ⟨hpos, hw, i, t, hloop, hget⟩ :=
        handleClean_exit_zero osArgs w _ position l harg hatoi hload hexit
      refine ⟨⟨l.take i ++ l.drop (i + 1)⟩, ?_,
        length_take_append_drop l i (List.getElem?_eq_some.mp hget).1⟩
      rw [handleClean_found osArgs w _ position l i t harg hatoi hpos hload hloop hget, hw]
  · intro hlen
    refine ⟨?_, List.length_filter_le isActive l⟩
    rw [handleClean_all osArgs w l hlen hload]
    by_cases h0 : l.countP isCompleted = 0
    · have h0' : (l.countP isCompleted : Int) = 0 := by omega
      rw [if_pos h0', if_pos h0]
    · have h0' : ¬ (l.countP isCompleted : Int) = 0 := by omega
      rw [if_neg h0', if_neg h0]
      cases w.writeErr <;> rfl

/-- Instance of C10: `done 2` on the sample collection resolves index 2 and
saves the three records with only that one completed; `clean 1` saves two. -/
theorem C10_lengths_witness :
    (∃ arg position i t, ["godo", "done", "2"][2]? = some arg ∧ Atoi arg = some position ∧
        doneLoop position sampleTodos 0 0 = some i ∧ sampleTodos[i]? = some t ∧
        t.Completed = false ∧
        (handleDone ["godo", "done", "2"] sampleWorld).saved =
          some ⟨sampleTodos.set i { t with Completed := true }⟩ ∧
        handleDone ["godo", "done", "2"] sampleWorld =
          ⟨[.completed position t.Text], 0,
            some ⟨sampleTodos.set i { t with Completed := true }⟩⟩) ∧
    (∃ s, (handleClean ["godo", "clean", "1"] sampleWorld).saved = some s ∧
        s.Todos.length + 1 = sampleTodos.length) :=
  ⟨(C10_lengths sampleTodos ["godo", "done", "2"] sampleWorld rfl).2.1 (by decide),
    (C10_lengths sampleTodos ["godo", "clean", "1"] sampleWorld rfl).2.2.2.2.2.1 (by decide)
      (by decide)⟩

end Godo
